import Mathlib

/-!
Verification of the `try-again` retry library.

The Rust source is shallowly embedded: pure functions become Lean
functions, the stateful iterators become explicit state passing
(`next : σ → Option (α × σ)`), and the retry loops become recursive
functions whose termination mirrors the source's own termination
argument (the attempt counter reaching the bound, resp. the take-count
reaching zero).
-/

namespace TryAgain

/-- Model of Rust `std::time::Duration` (src/src/duration.rs re-exports it as
`StdDuration`): a machine-independent time span, represented here as a number
of nanoseconds. -/
abbrev StdDuration := Nat

/-- `Duration::ZERO`. -/
def StdDuration.ZERO : StdDuration := 0

/-- `IntoStdDuration::millis` from src/src/duration.rs: `Duration::from_millis`,
i.e. milliseconds expressed in nanoseconds. -/
def millis (n : Nat) : StdDuration := n * 1000000

/-! ## Outcome predicates (src/src/fallible.rs) -/

/-- Rust `Result<T, E>`. -/
inductive Result (T E : Type) where
  | Ok (t : T)
  | Err (e : E)
deriving DecidableEq, Repr

/-- `Result::is_err`. -/
def Result.is_err {T E : Type} : Result T E → Bool
  | .Ok _ => false
  | .Err _ => true

/-- Model of Rust `std::process::ExitStatus`: carries an exit code; `success`
holds exactly when the code is zero. -/
structure ExitStatus where
  code : Nat
deriving DecidableEq, Repr

/-- `ExitStatus::success`: true iff the process exited with code zero. -/
def ExitStatus.success (s : ExitStatus) : Bool := s.code == 0

/-- The `NeedsRetry` trait from src/src/fallible.rs. -/
class NeedsRetry (α : Type) where
  needs_retry : α → Bool

/-- `impl<T, E> NeedsRetry for Result<T, E> { self.is_err() }`. -/
instance instNeedsRetryResult {T E : Type} : NeedsRetry (Result T E) :=
  ⟨fun r => r.is_err⟩

/-- `impl<T> NeedsRetry for Option<T> { self.is_none() }`. -/
instance instNeedsRetryOption {T : Type} : NeedsRetry (Option T) :=
  ⟨fun o => o.isNone⟩

/-- `impl NeedsRetry for std::process::ExitStatus { !self.success() }`. -/
instance instNeedsRetryExitStatus : NeedsRetry ExitStatus :=
  ⟨fun s => !s.success⟩

/-! ## Delay strategies (src/src/delay/) -/

/-- `Fixed` from src/src/delay/fixed.rs. -/
structure Fixed where
  delay : StdDuration
deriving DecidableEq, Repr

/-- `Fixed::of`. -/
def Fixed.of (delay : StdDuration) : Fixed := ⟨delay⟩

/-- `impl Iterator for Fixed`: always yields the configured delay. -/
def Fixed.next (s : Fixed) : Option (StdDuration × Fixed) :=
  some (s.delay, s)

/-- `None` from src/src/delay/none.rs (the no-delay strategy). -/
structure None where
deriving DecidableEq, Repr

/-- `impl Iterator for None`: always yields `Duration::ZERO`. -/
def None.next (s : None) : Option (StdDuration × None) :=
  some (StdDuration.ZERO, s)

/-- `ExponentialBackoff` from src/src/delay/exponential.rs. -/
structure ExponentialBackoff where
  initial_delay : StdDuration
deriving DecidableEq, Repr

/-- `ExponentialBackoff::of_initial_delay`. -/
def ExponentialBackoff.of_initial_delay (initial_delay : StdDuration) :
    ExponentialBackoff := ⟨initial_delay⟩

/-- `ExponentialBackoffWithCap` from src/src/delay/exponential.rs. -/
structure ExponentialBackoffWithCap where
  initial_delay : StdDuration
  last_delay : StdDuration
  max_delay : Option StdDuration
  first : Bool
deriving DecidableEq, Repr

/-- `ExponentialBackoff::uncapped`. -/
def ExponentialBackoff.uncapped (s : ExponentialBackoff) :
    ExponentialBackoffWithCap :=
  { initial_delay := s.initial_delay
    last_delay := StdDuration.ZERO
    max_delay := none
    first := true }

/-- `ExponentialBackoff::capped_at`. -/
def ExponentialBackoff.capped_at (s : ExponentialBackoff)
    (max_delay : StdDuration) : ExponentialBackoffWithCap :=
  { initial_delay := s.initial_delay
    last_delay := StdDuration.ZERO
    max_delay := some max_delay
    first := true }

/-- `impl Iterator for ExponentialBackoffWithCap` (src/src/delay/exponential.rs,
lines 49-68): the first call yields the initial delay unchanged; each later
call doubles the last produced delay and clamps it to `max_delay` when one is
set, the clamped value becoming the new `last_delay`. -/
def ExponentialBackoffWithCap.next (s : ExponentialBackoffWithCap) :
    Option (StdDuration × ExponentialBackoffWithCap) :=
  if s.first then
    some (s.initial_delay,
      { s with first := false, last_delay := s.initial_delay })
  else
    let doubled := s.last_delay * 2
    let clamped :=
      match s.max_delay with
      | some m => if doubled > m then m else doubled
      | none => doubled
    some (clamped, { s with last_delay := clamped })

/-! ## Iterator semantics

A Rust `Iterator` is embedded as a step function `σ → Option (α × σ)`.
`stream` observes the i-th element a stateful iterator produces, `produce`
collects the first k elements (stopping early on exhaustion), and `takeNext`
is the step function of `std::iter::Take` as used by
`TrackedIterator::take` (src/src/tracked_iterator.rs, lines 45-52). -/

/-- The i-th element (0-based) produced by repeatedly calling an iterator's
step function, or `none` if the iterator is exhausted before that. -/
def stream {σ α : Type} (nextf : σ → Option (α × σ)) : σ → Nat → Option α
  | s, i =>
    match nextf s with
    | none => none
    | some (a, s2) =>
      match i with
      | 0 => some a
      | i' + 1 => stream nextf s2 i'

/-- Collect the first `k` elements produced by an iterator, stopping early if
it reports exhaustion. -/
def produce {σ α : Type} (nextf : σ → Option (α × σ)) : Nat → σ → List α
  | 0, _ => []
  | k + 1, s =>
    match nextf s with
    | none => []
    | some (a, s2) => a :: produce nextf k s2

/-- Step function of `std::iter::Take<I>`: the state pairs the remaining count
with the inner iterator's state; when the count is zero the iterator is
exhausted, otherwise it defers to the inner iterator and decrements. -/
def takeNext {σ α : Type} (innerNext : σ → Option (α × σ)) :
    Nat × σ → Option (α × (Nat × σ))
  | (0, _) => none
  | (n + 1, s) =>
    match innerNext s with
    | none => none
    | some (a, s2) => some (a, (n, s2))

/-! ## Retry strategy and orchestrator (src/src/retry.rs, src/src/lib.rs) -/

/-- `Delay` from src/src/retry.rs. -/
inductive Delay where
  | Static (delay : StdDuration)
  | ExponentialBackoff (initial_delay : StdDuration)
      (max_delay : Option StdDuration)
deriving DecidableEq, Repr

/-- `Retry` from src/src/retry.rs. -/
structure Retry where
  max_tries : Nat
  delay : Option Delay
deriving DecidableEq, Repr

/-- The associated function `Retry::max_tries` (named `of_max_tries` here
because the field accessor already carries the Rust name). -/
def Retry.of_max_tries (max_tries : Nat) : Retry :=
  { max_tries := max_tries, delay := none }

/-- `RetryStrategy::initial_delay` for `Retry` (src/src/retry.rs, lines
54-66). -/
def Retry.initial_delay (r : Retry) : StdDuration :=
  match r.delay with
  | some (.Static duration) => duration
  | some (.ExponentialBackoff initial_delay _) => initial_delay
  | none => StdDuration.ZERO

/-- `RetryStrategy::next_delay` for `Retry` (src/src/retry.rs, lines 68-88);
the `tries` argument is unused by the source as well. -/
def Retry.next_delay (r : Retry) (_tries : Nat) (last_delay : StdDuration) :
    StdDuration :=
  match r.delay with
  | some (.Static duration) => duration
  | some (.ExponentialBackoff _ max_delay) =>
    let next := last_delay * 2
    match max_delay with
    | some m => if next > m then m else next
    | none => next
  | none => last_delay

/-- `RetryStrategy::is_exhausted` for `Retry` (src/src/retry.rs, lines
90-92): `tries >= self.max_tries`. -/
def Retry.is_exhausted (r : Retry) (tries : Nat) : Bool :=
  decide (tries ≥ r.max_tries)

/-- The loop of `fn retry` (src/src/lib.rs, lines 95-126). The operation
closure is embedded as a function of the 1-based invocation number (its
hidden mutable state made explicit), and the delay executor is embedded by
recording each duration handed to it. Returns the final outcome, the number
of invocations performed (the final value of `tries`), and the list of
executed delays. Termination mirrors the source: `tries` grows by one per
iteration and the loop returns once `is_exhausted tries` holds. -/
def retryAux {Out : Type} [NeedsRetry Out] (retry_strategy : Retry)
    (operation : Nat → Out) (tries : Nat) (next_delay : StdDuration) :
    Out × Nat × List StdDuration :=
  let out := operation tries
  match NeedsRetry.needs_retry out with
  | false => (out, tries, [])
  | true =>
    if h : retry_strategy.is_exhausted tries then (out, tries, [])
    else
      let res := retryAux retry_strategy operation (tries + 1)
        (retry_strategy.next_delay tries next_delay)
      (res.1, res.2.1, next_delay :: res.2.2)
termination_by retry_strategy.max_tries - tries
decreasing_by
  simp [Retry.is_exhausted] at h
  omega

/-- `fn retry` (src/src/lib.rs, lines 95-126): `tries` starts at 1 and the
first delay is `retry_strategy.initial_delay()`. -/
def retry {Out : Type} [NeedsRetry Out] (retry_strategy : Retry)
    (operation : Nat → Out) : Out × Nat × List StdDuration :=
  retryAux retry_strategy operation 1 retry_strategy.initial_delay

/-! ## The later-generation orchestrator (spec-modelled) -/

/-- Modelled from the spec: the later-generation retry orchestrator
`retry(operation).delayed_by(delay_strategy)` (and its `retry_with_options`
form), whose defining module is absent from the analyzed source — only its
tests (src/tests/sync_tests.rs, src/tests/async_tests.rs), the
`DelayStrategy` trait it consumes (src/src/delay_strategy.rs) and the delay
sequences are present. Per spec section 4.5: invoke the operation; if the
outcome needs no retry, return it; otherwise request the next element from
the delay sequence — if it yields a value, execute the delay and loop with
the attempt counter incremented, and if it is exhausted, return the last
outcome produced. The accepted delay sequence is `take(n)`-bounded (the
`FiniteIterator` produced by `TrackedIterator::take`): its state is the
remaining count `n` paired with the inner iterator state, and its `next` is
exactly `takeNext` (inlined in the two match arms below so the recursion is
structural on `n`). The `attempt` argument is the 1-based invocation number;
the result records (final outcome, invocations performed, delays executed). -/
def delayed_byAux {σ Out : Type} [NeedsRetry Out]
    (operation : Nat → Out) (innerNext : σ → Option (StdDuration × σ)) :
    Nat → σ → Nat → Out × Nat × List StdDuration
  | n, s, attempt =>
    let out := operation attempt
    match NeedsRetry.needs_retry out with
    | false => (out, attempt, [])
    | true =>
      match n with
      | 0 => (out, attempt, [])
      | n2 + 1 =>
        match innerNext s with
        | none => (out, attempt, [])
        | some (d, s2) =>
          let res := delayed_byAux operation innerNext n2 s2 (attempt + 1)
          (res.1, res.2.1, d :: res.2.2)

/-- Modelled from the spec: running a retry session with a `take(n)`-bounded
delay sequence, starting at attempt 1. -/
def delayed_by {σ Out : Type} [NeedsRetry Out] (operation : Nat → Out)
    (innerNext : σ → Option (StdDuration × σ)) (n : Nat) (s : σ) :
    Out × Nat × List StdDuration :=
  delayed_byAux operation innerNext n s 1

/-! ## Finiteness-tracked iterators (src/src/tracked_iterator.rs) -/

/-- The phantom finiteness markers of src/src/tracked_iterator.rs:
`Finite`, `Infinite`, `Unknown`. -/
inductive Finiteness where
  | Finite
  | Infinite
  | Unknown
deriving DecidableEq, Repr

/-- A raw Rust iterator: a state type, the current state and the step
function (`Iterator::next` with the mutable receiver made explicit). -/
structure RawIter (α : Type) : Type 1 where
  σ : Type
  state : σ
  next : σ → Option (α × σ)

/-- The public construction surface of `TrackedIterator<I, F>`
(src/src/tracked_iterator.rs): `into_tracked` wraps any iterator with the
`Unknown` tag; `take` yields a `Finite`-tagged iterator from any tag; `map`
and `filter` preserve the tag; conversion from a `Vec` or a slice is
`Finite`. A value of `Tracked α F` is an iterator together with the
derivation of its tag through this surface. -/
inductive Tracked : Type → Finiteness → Type 1 where
  | into_tracked {α : Type} (it : RawIter α) : Tracked α .Unknown
  | take {α : Type} {F : Finiteness} (t : Tracked α F) (n : Nat) :
      Tracked α .Finite
  | map {α β : Type} {F : Finiteness} (t : Tracked α F) (f : α → β) :
      Tracked β F
  | filter {α : Type} {F : Finiteness} (t : Tracked α F) (p : α → Bool) :
      Tracked α F
  | fromVec {α : Type} (l : List α) : Tracked α .Finite
  | fromSlice {α : Type} (l : List α) : Tracked α .Finite

/-- One call of `Iterator::next` on a tracked iterator, by cases on how it
was constructed: `take` is the `std::iter::Take` step, `map` applies its
function to the yielded element, `filter` pulls from the inner iterator
until the predicate accepts, and the collection conversions walk their list.
The skipping loop inside `filter` genuinely may not terminate over an
unbounded inner iterator, so the step is fueled: `fuel` bounds the number of
rejected elements `filter` may skip, and the outer `none` means the fuel ran
out (the inner `Option` is the iterator's own yield-or-exhausted answer). -/
def Tracked.step : Nat → {α : Type} → {F : Finiteness} →
    Tracked α F → Option (Option (α × Tracked α F))
  | _, _, _, .into_tracked it =>
    match it.next it.state with
    | none => some none
    | some (a, s2) => some (some (a, .into_tracked ⟨it.σ, s2, it.next⟩))
  | fuel, _, _, .take t n =>
    match n with
    | 0 => some none
    | n2 + 1 =>
      match Tracked.step fuel t with
      | none => none
      | some none => some none
      | some (some (a, t2)) => some (some (a, .take t2 n2))
  | fuel, _, _, .map t f =>
    match Tracked.step fuel t with
    | none => none
    | some none => some none
    | some (some (a, t2)) => some (some (f a, .map t2 f))
  | 0, _, _, .filter _ _ => none
  | fuel + 1, _, _, .filter t p =>
    match Tracked.step (fuel + 1) t with
    | none => none
    | some none => some none
    | some (some (a, t2)) =>
      if p a then some (some (a, .filter t2 p))
      else Tracked.step fuel (.filter t2 p)
  | _, _, _, .fromVec [] => some none
  | _, _, _, .fromVec (a :: l) => some (some (a, .fromVec l))
  | _, _, _, .fromSlice [] => some none
  | _, _, _, .fromSlice (a :: l) => some (some (a, .fromSlice l))
termination_by fuel α F t => (fuel, sizeOf t)


/-- Collect the elements a tracked iterator yields, given at most `fuel`
yields and per-step skip budget. -/
def Tracked.produceT : Nat → {α : Type} → {F : Finiteness} →
    Tracked α F → List α
  | 0, _, _, _ => []
  | fuel + 1, _, _, t =>
    match Tracked.step (fuel + 1) t with
    | none => []
    | some none => []
    | some (some (a, t2)) => a :: Tracked.produceT fuel t2

/-- The static element bound certified by the construction: a `take n`
yields at most `n` elements and a collection conversion at most its length;
`map` and `filter` cannot increase the count. (On an `Unknown`-tagged bare
`into_tracked` the value is meaningless and unused — no bound exists.) -/
def Tracked.bound : {α : Type} → {F : Finiteness} → Tracked α F → Nat
  | _, _, .into_tracked _ => 0
  | _, _, .take _ n => n
  | _, _, .map t _ => Tracked.bound t
  | _, _, .filter t _ => Tracked.bound t
  | _, _, .fromVec l => l.length
  | _, _, .fromSlice l => l.length

/-- Whether the iterator's tag originates from one of the two sanctioned
`Finite` introductions — `take` or a bounded-collection conversion — possibly
under tag-preserving adaptors. -/
def Tracked.finiteOrigin : {α : Type} → {F : Finiteness} →
    Tracked α F → Bool
  | _, _, .into_tracked _ => false
  | _, _, .take _ _ => true
  | _, _, .map t _ => Tracked.finiteOrigin t
  | _, _, .filter t _ => Tracked.finiteOrigin t
  | _, _, .fromVec _ => true
  | _, _, .fromSlice _ => true


/-- The `DelayStrategy` impl of src/src/delay_strategy.rs: `next_delay`
delegates to the iterator's own `next` and is provided only for
`FiniteIterator` — in the embedding, the argument type is `Tracked α .Finite`,
so an `Infinite`- or `Unknown`-tagged sequence is not accepted. -/
def Tracked.next_delay {α : Type} (fuel : Nat) (t : Tracked α .Finite) :
    Option (Option (α × Tracked α .Finite)) :=
  Tracked.step fuel t

/-! ## Closed forms for the exponential backoff sequence -/

/-- Unfolding step for `stream` when the iterator yields an element. -/
lemma stream_succ_step {σ α : Type} (nextf : σ → Option (α × σ))
    (s s2 : σ) (a : α) (i : Nat) (h : nextf s = some (a, s2)) :
    stream nextf s (i + 1) = stream nextf s2 i := by
  rw [stream, h]

lemma stream_uncapped_after_first (d l : Nat) :
    ∀ i, stream ExponentialBackoffWithCap.next
      ⟨d, l, none, false⟩ i = some (2 ^ (i + 1) * l) := by
  intro i
  induction i generalizing l with
  | zero =>
    simp [stream, ExponentialBackoffWithCap.next]
    ring
  | succ i ih =>
    rw [stream]
    simp only [ExponentialBackoffWithCap.next, Bool.false_eq_true, if_false]
    rw [ih (l * 2)]
    congr 1
    ring

lemma stream_capped_after_first (d c l : Nat) :
    ∀ i, stream ExponentialBackoffWithCap.next
      ⟨d, l, some c, false⟩ i = some (min (2 ^ (i + 1) * l) c) := by
  intro i
  induction i generalizing l with
  | zero =>
    simp [stream, ExponentialBackoffWithCap.next]
    rcases le_or_lt (l * 2) c with h | h
    · rw [if_neg (show ¬ c < l * 2 by omega),
        min_eq_left (show 2 * l ≤ c by omega)]
      exact mul_comm l 2
    · rw [if_pos (show c < l * 2 by omega),
        min_eq_right (show c ≤ 2 * l by omega)]
  | succ i ih =>
    rw [stream]
    simp only [ExponentialBackoffWithCap.next, Bool.false_eq_true, if_false]
    rcases le_or_lt (l * 2) c with h | h
    · rw [if_neg (show ¬ c < l * 2 by omega), ih (l * 2)]
      have e : 2 ^ (i + 1) * (l * 2) = 2 ^ (i + 1 + 1) * l := by ring
      rw [e]
    · rw [if_pos (show c < l * 2 by omega), ih c]
      have p1 : (1 : Nat) ≤ 2 ^ (i + 1) := Nat.one_le_two_pow
      have hA : c ≤ 2 ^ (i + 1) * c := Nat.le_mul_of_pos_left _ (by omega)
      have hB : c ≤ 2 ^ (i + 1 + 1) * l := by
        have step : 2 * l ≤ 2 ^ (i + 1) * (2 * l) :=
          Nat.le_mul_of_pos_left _ (by omega)
        have e : 2 ^ (i + 1) * (2 * l) = 2 ^ (i + 1 + 1) * l := by ring
        rw [e] at step
        omega
      rw [min_eq_right hA, min_eq_right hB]

/-- C5: the i-th element (0-based) of the uncapped exponential backoff
sequence with initial delay d equals 2^i * d; concretely 50ms taken to 4
elements yields [50ms, 100ms, 200ms, 400ms] and the 5th request reports
exhaustion. -/
theorem uncapped_backoff_closed_form :
    (∀ (d i : Nat),
      stream ExponentialBackoffWithCap.next
        ((ExponentialBackoff.of_initial_delay d).uncapped) i =
        some (2 ^ i * d))
    ∧ produce (takeNext ExponentialBackoffWithCap.next) 5
        (4, (ExponentialBackoff.of_initial_delay (millis 50)).uncapped) =
        [millis 50, millis 100, millis 200, millis 400]
    ∧ stream (takeNext ExponentialBackoffWithCap.next)
        (4, (ExponentialBackoff.of_initial_delay (millis 50)).uncapped) 4 =
        none := by
  refine ⟨?_, by decide, by decide⟩
  intro d i
  cases i with
  | zero =>
    simp [stream, ExponentialBackoffWithCap.next,
      ExponentialBackoff.uncapped, ExponentialBackoff.of_initial_delay]
  | succ i =>
    have hstep : ExponentialBackoffWithCap.next
        ((ExponentialBackoff.of_initial_delay d).uncapped) =
        some (d, ⟨d, d, none, false⟩) := rfl
    rw [stream_succ_step _ _ _ _ _ hstep, stream_uncapped_after_first d d i]

/-- C4: every element of the capped exponential backoff sequence after the
first is the doubling sequence clamped at the cap c (so once doubling would
exceed c, every subsequent element equals exactly c, the clamped value being
the new previous value); concretely 50ms capped at 250ms taken to 5 elements
yields [50ms, 100ms, 200ms, 250ms, 250ms]. -/
theorem capped_backoff_closed_form :
    (∀ (d c j : Nat),
      stream ExponentialBackoffWithCap.next
        ((ExponentialBackoff.of_initial_delay d).capped_at c) (j + 1) =
        some (min (2 ^ (j + 1) * d) c))
    ∧ produce (takeNext ExponentialBackoffWithCap.next) 5
        (5, (ExponentialBackoff.of_initial_delay (millis 50)).capped_at
          (millis 250)) =
        [millis 50, millis 100, millis 200, millis 250, millis 250] := by
  refine ⟨?_, by decide⟩
  intro d c j
  have hstep : ExponentialBackoffWithCap.next
      ((ExponentialBackoff.of_initial_delay d).capped_at c) =
      some (d, ⟨d, d, some c, false⟩) := rfl
  rw [stream_succ_step _ _ _ _ _ hstep, stream_capped_after_first d c d j]

/-- C10: the first element of the capped exponential backoff sequence is the
initial delay d exactly, with no clamping, even when d exceeds the cap c;
concretely initial delay 300ms with cap 250ms yields 300ms first. -/
theorem capped_backoff_first_element_unclamped :
    (∀ (d c : Nat),
      stream ExponentialBackoffWithCap.next
        ((ExponentialBackoff.of_initial_delay d).capped_at c) 0 = some d)
    ∧ stream ExponentialBackoffWithCap.next
        ((ExponentialBackoff.of_initial_delay (millis 300)).capped_at
          (millis 250)) 0 = some (millis 300) := by
  refine ⟨?_, by decide⟩
  intro d c
  simp [stream, ExponentialBackoffWithCap.next,
    ExponentialBackoff.capped_at, ExponentialBackoff.of_initial_delay]

/-- C8: every element the Fixed strategy produces equals the configured delay
d, and every element the None strategy produces is the zero-length delay, for
any number of elements requested. -/
theorem fixed_and_none_constant_delays :
    (∀ (d k : Nat),
      produce Fixed.next k (Fixed.of d) = List.replicate k d)
    ∧ ∀ (k : Nat),
      produce None.next k {} = List.replicate k StdDuration.ZERO := by
  constructor
  · intro d k
    induction k with
    | zero => rfl
    | succ k ih =>
      simpa [produce, Fixed.next, Fixed.of, List.replicate] using ih
  · intro k
    induction k with
    | zero => rfl
    | succ k ih => simp [produce, None.next, List.replicate, ih]

/-- C7: the built-in outcome predicates classify exactly as specified: a
Result needs retry iff it is Err, an Option needs retry iff it is none, and a
process exit status needs retry iff it is not successful. -/
theorem needs_retry_classification :
    (∀ (T E : Type) (r : Result T E),
      NeedsRetry.needs_retry r = true ↔ ∃ e, r = Result.Err e)
    ∧ (∀ (T : Type) (o : Option T),
      NeedsRetry.needs_retry o = true ↔ o = none)
    ∧ ∀ (s : ExitStatus),
      NeedsRetry.needs_retry s = true ↔ s.success = false := by
  refine ⟨?_, ?_, ?_⟩
  · intro T E r
    cases r <;> simp [NeedsRetry.needs_retry, Result.is_err]
  · intro T o
    cases o <;> simp [NeedsRetry.needs_retry]
  · intro s
    simp [NeedsRetry.needs_retry]


/-- A first outcome needing no retry ends the session at once. -/
lemma retryAux_first_success {Out : Type} [NeedsRetry Out] (r : Retry)
    (op : Nat → Out) (tries : Nat) (dly : StdDuration)
    (h : NeedsRetry.needs_retry (op tries) = false) :
    retryAux r op tries dly = (op tries, tries, []) := by
  rw [retryAux]
  simp [h]

/-- A failing outcome with the bound exhausted ends the session with that
outcome. -/
lemma retryAux_fail_exhausted {Out : Type} [NeedsRetry Out] (r : Retry)
    (op : Nat → Out) (tries : Nat) (dly : StdDuration)
    (h : NeedsRetry.needs_retry (op tries) = true)
    (hx : r.max_tries ≤ tries) :
    retryAux r op tries dly = (op tries, tries, []) := by
  rw [retryAux]
  simp [h, Retry.is_exhausted, hx]

/-- A failing outcome with the bound not yet exhausted executes the pending
delay and continues at the next attempt. -/
lemma retryAux_fail_cont {Out : Type} [NeedsRetry Out] (r : Retry)
    (op : Nat → Out) (tries : Nat) (dly : StdDuration)
    (h : NeedsRetry.needs_retry (op tries) = true)
    (hx : tries < r.max_tries) :
    retryAux r op tries dly =
      ((retryAux r op (tries + 1) (r.next_delay tries dly)).1,
       (retryAux r op (tries + 1) (r.next_delay tries dly)).2.1,
       dly :: (retryAux r op (tries + 1) (r.next_delay tries dly)).2.2) := by
  rw [retryAux]
  simp [h, Retry.is_exhausted, Nat.not_le_of_lt hx]

/-- On a persistently failing operation the loop runs until `is_exhausted`
and hands back the outcome of attempt `max max_tries tries`. -/
lemma retryAux_always_fail {Out : Type} [NeedsRetry Out] (r : Retry)
    (op : Nat → Out) (hf : ∀ k, NeedsRetry.needs_retry (op k) = true) :
    ∀ (fuel tries : Nat) (dly : StdDuration), r.max_tries - tries ≤ fuel →
      (retryAux r op tries dly).1 = op (max r.max_tries tries) ∧
      (retryAux r op tries dly).2.1 = max r.max_tries tries := by
  intro fuel
  induction fuel with
  | zero =>
    intro tries dly hle
    rw [retryAux_fail_exhausted r op tries dly (hf tries) (by omega)]
    have hm : max r.max_tries tries = tries := by omega
    rw [hm]
    exact ⟨rfl, rfl⟩
  | succ fuel ih =>
    intro tries dly hle
    rcases le_or_lt r.max_tries tries with hx | hx
    · rw [retryAux_fail_exhausted r op tries dly (hf tries) hx]
      have hm : max r.max_tries tries = tries := by omega
      rw [hm]
      exact ⟨rfl, rfl⟩
    · rw [retryAux_fail_cont r op tries dly (hf tries) hx]
      have := ih (tries + 1) (r.next_delay tries dly) (by omega)
      have hm : max r.max_tries (tries + 1) = max r.max_tries tries := by
        omega
      rw [hm] at this
      exact ⟨this.1, this.2⟩


/-- One step of the spec-modelled orchestrator on an immediately successful
outcome. -/
lemma delayed_byAux_first_success {σ Out : Type} [NeedsRetry Out]
    (op : Nat → Out) (innerNext : σ → Option (StdDuration × σ))
    (n : Nat) (s : σ) (attempt : Nat)
    (h : NeedsRetry.needs_retry (op attempt) = false) :
    delayed_byAux op innerNext n s attempt = (op attempt, attempt, []) := by
  rw [delayed_byAux.eq_def]
  simp [h]

/-- On a persistently failing operation over a productive inner sequence the
spec-modelled loop consumes all n delays and performs attempt + n
invocations in total. -/
lemma delayed_byAux_always_fail {σ Out : Type} [NeedsRetry Out]
    (op : Nat → Out) (innerNext : σ → Option (StdDuration × σ))
    (hfail : ∀ k, NeedsRetry.needs_retry (op k) = true)
    (hprod : ∀ s : σ, ∃ d s2, innerNext s = some (d, s2)) :
    ∀ (n : Nat) (s : σ) (attempt : Nat),
      (delayed_byAux op innerNext n s attempt).2.1 = attempt + n ∧
      (delayed_byAux op innerNext n s attempt).2.2.length = n := by
  intro n
  induction n with
  | zero =>
    intro s attempt
    rw [delayed_byAux.eq_def]
    simp [hfail attempt]
  | succ n ih =>
    intro s attempt
    obtain ⟨d, s2, heq⟩ := hprod s
    rw [delayed_byAux.eq_def]
    simp only [hfail attempt, heq]
    have := ih s2 (attempt + 1)
    constructor
    · simp only [this.1]
      omega
    · simp only [List.length_cons, this.2]

/-- C1: for an always-failing operation and any take(n)-bounded delay
sequence over a productive inner iterator, the spec-modelled orchestrator
performs exactly n + 1 invocations and n suspensions (so take(0) gives one
invocation and no suspension). -/
theorem delayed_by_persistent_failure_counts {σ Out : Type} [NeedsRetry Out]
    (op : Nat → Out) (innerNext : σ → Option (StdDuration × σ))
    (hfail : ∀ k, NeedsRetry.needs_retry (op k) = true)
    (hprod : ∀ s : σ, ∃ d s2, innerNext s = some (d, s2))
    (n : Nat) (s : σ) :
    (delayed_by op innerNext n s).2.1 = n + 1 ∧
    (delayed_by op innerNext n s).2.2.length = n := by
  have h := delayed_byAux_always_fail op innerNext hfail hprod n s 1
  unfold delayed_by
  constructor
  · rw [h.1]
    omega
  · exact h.2

/-- C1 witness: an always-None operation with Fixed(5ms).take(2) makes 3
invocations and 2 suspensions. -/
theorem delayed_by_persistent_failure_counts_witness :
    (delayed_by (fun _ => (none : Option Nat)) Fixed.next 2
      (Fixed.of (millis 5))).2.1 = 2 + 1 ∧
    (delayed_by (fun _ => (none : Option Nat)) Fixed.next 2
      (Fixed.of (millis 5))).2.2.length = 2 :=
  delayed_by_persistent_failure_counts _ _ (fun _ => rfl)
    (fun s => ⟨s.delay, s, rfl⟩) 2 (Fixed.of (millis 5))

/-- C2: when the bound is exhausted while the outcome still needs retry, the
orchestrator returns the outcome of its final invocation unchanged (no
distinct exhaustion error exists in the return type, and the embedded loop
is a total function, so it cannot panic). -/
theorem retry_exhaustion_returns_last_outcome {Out : Type} [NeedsRetry Out]
    (r : Retry) (op : Nat → Out)
    (hf : ∀ k, NeedsRetry.needs_retry (op k) = true) :
    (retry r op).1 = op ((retry r op).2.1) ∧
    (retry r op).2.1 = max r.max_tries 1 := by
  have h := retryAux_always_fail r op hf r.max_tries 1 r.initial_delay
    (by omega)
  unfold retry
  exact ⟨by rw [h.1, h.2], h.2⟩

/-- C2 witness: a counter-shaped always-failing Result with max_tries = 3
returns Err of the 3rd invocation. -/
theorem retry_exhaustion_returns_last_outcome_witness :
    (retry (Retry.of_max_tries 3)
      (fun k => (Result.Err k : Result Unit Nat))).1 =
      (fun k => (Result.Err k : Result Unit Nat))
        ((retry (Retry.of_max_tries 3)
          (fun k => (Result.Err k : Result Unit Nat))).2.1) ∧
    (retry (Retry.of_max_tries 3)
      (fun k => (Result.Err k : Result Unit Nat))).2.1 =
      max (Retry.of_max_tries 3).max_tries 1 :=
  retry_exhaustion_returns_last_outcome _ _ (fun _ => rfl)

/-- C6: when the first outcome needs no retry, both orchestrators invoke the
operation exactly once and return that outcome, regardless of the configured
retry bound or delay sequence. -/
theorem retry_first_success_single_invocation {Out : Type} [NeedsRetry Out]
    (r : Retry) (op : Nat → Out)
    (h : NeedsRetry.needs_retry (op 1) = false) :
    retry r op = (op 1, 1, []) ∧
    ∀ {σ : Type} (innerNext : σ → Option (StdDuration × σ)) (n : Nat)
      (s : σ), delayed_by op innerNext n s = (op 1, 1, []) := by
  constructor
  · unfold retry
    exact retryAux_first_success r op 1 r.initial_delay h
  · intro σ innerNext n s
    unfold delayed_by
    exact delayed_byAux_first_success op innerNext n s 1 h

/-- C6 witness: an always-Ok operation is invoked once under max_tries = 5
and once under a Fixed(50ms).take(3) sequence. -/
theorem retry_first_success_single_invocation_witness :
    retry (Retry.of_max_tries 5)
      (fun _ => (Result.Ok 42 : Result Nat Unit)) =
      (Result.Ok 42, 1, []) ∧
    delayed_by (fun _ => (Result.Ok 42 : Result Nat Unit)) Fixed.next 3
      (Fixed.of (millis 50)) = (Result.Ok 42, 1, []) :=
  ⟨(retry_first_success_single_invocation (Retry.of_max_tries 5) _ rfl).1,
   (retry_first_success_single_invocation (Retry.of_max_tries 5) _ rfl).2
     Fixed.next 3 (Fixed.of (millis 50))⟩

/-- C9: the orchestrator is a pure function of its arguments, so two
independent sessions over the same successful operation return the same
outcome and the same invocation count (one each). -/
theorem retry_deterministic_across_sessions {Out : Type} [NeedsRetry Out]
    (r : Retry) (op : Nat → Out)
    (h : NeedsRetry.needs_retry (op 1) = false) :
    retry r op = retry r op ∧
    (retry r op).1 = op 1 ∧ (retry r op).2.1 = 1 := by
  refine ⟨rfl, ?_, ?_⟩ <;>
  · unfold retry
    rw [retryAux_first_success r op 1 r.initial_delay h]

/-- C9 witness at a concrete successful Option operation. -/
theorem retry_deterministic_across_sessions_witness :
    retry (Retry.of_max_tries 2) (fun _ => (some 7 : Option Nat)) =
      retry (Retry.of_max_tries 2) (fun _ => (some 7 : Option Nat)) ∧
    (retry (Retry.of_max_tries 2) (fun _ => (some 7 : Option Nat))).1 =
      some 7 ∧
    (retry (Retry.of_max_tries 2) (fun _ => (some 7 : Option Nat))).2.1 =
      1 :=
  retry_deterministic_across_sessions _ _ rfl

lemma Tracked.step_bound_lt :
    ∀ (fuel : Nat) {α : Type} {F : Finiteness} (t : Tracked α F),
      F = .Finite → ∀ (a : α) (t2 : Tracked α F),
      Tracked.step fuel t = some (some (a, t2)) →
      Tracked.bound t2 < Tracked.bound t := by
  intro fuel α F t
  induction fuel, α, F, t using Tracked.step.induct with
  | case1 α fuel it h =>
    intro hF
    simp at hF
  | case2 α fuel it a s2 h =>
    intro hF
    simp at hF
  | case3 α fuel F t =>
    intro hF a t2 heq
    simp [Tracked.step] at heq
  | case4 α fuel F n2 t h ih =>
    intro hF a t2 heq
    simp [Tracked.step, h] at heq
  | case5 α fuel F n2 t h ih =>
    intro hF a t2 heq
    simp [Tracked.step, h] at heq
  | case6 α fuel F n2 t a0 t20 h ih =>
    intro hF a t2 heq
    simp [Tracked.step, h] at heq
    obtain ⟨rfl, rfl⟩ := heq
    simp [Tracked.bound]
  | case7 α F fuel α1 f t h ih =>
    intro hF a t2 heq
    simp [Tracked.step, h] at heq
  | case8 α F fuel α1 f t h ih =>
    intro hF a t2 heq
    simp [Tracked.step, h] at heq
  | case9 α F fuel α1 a0 f t t20 h ih =>
    intro hF a t2 heq
    simp [Tracked.step, h] at heq
    obtain ⟨rfl, rfl⟩ := heq
    simp [Tracked.bound]
    exact ih hF a0 t20 h
  | case10 α F p t =>
    intro hF a t2 heq
    simp [Tracked.step] at heq
  | case11 α F fuel p t h ih =>
    intro hF a t2 heq
    simp [Tracked.step, h] at heq
  | case12 α F fuel p t h ih =>
    intro hF a t2 heq
    simp [Tracked.step, h] at heq
  | case13 α F fuel p a0 hp t t20 h ih =>
    intro hF a t2 heq
    simp [Tracked.step, h, hp] at heq
    obtain ⟨rfl, rfl⟩ := heq
    simp [Tracked.bound]
    exact ih hF a0 t20 h
  | case14 α F fuel p a0 hp t t20 h ih1 ih2 =>
    intro hF a t2 heq
    simp [Tracked.step, h, hp] at heq
    have h1 := ih1 hF a0 t20 h
    have h2 := ih2 hF a t2 heq
    simp [Tracked.bound] at h1 h2 ⊢
    omega
  | case15 α fuel =>
    intro hF a t2 heq
    simp [Tracked.step] at heq
  | case16 α fuel a0 l =>
    intro hF a t2 heq
    simp [Tracked.step] at heq
    obtain ⟨rfl, rfl⟩ := heq
    simp [Tracked.bound]
  | case17 α fuel =>
    intro hF a t2 heq
    simp [Tracked.step] at heq
  | case18 α fuel a0 l =>
    intro hF a t2 heq
    simp [Tracked.step] at heq
    obtain ⟨rfl, rfl⟩ := heq
    simp [Tracked.bound]



lemma Tracked.produceT_length_le :
    ∀ (fuel : Nat) {α : Type} (t : Tracked α .Finite),
      (Tracked.produceT fuel t).length ≤ Tracked.bound t := by
  intro fuel
  induction fuel with
  | zero =>
    intro α t
    simp [Tracked.produceT]
  | succ fuel ih =>
    intro α t
    rw [Tracked.produceT]
    cases hstep : Tracked.step (fuel + 1) t with
    | none => simp
    | some o =>
      cases o with
      | none => simp
      | some pair =>
        obtain ⟨a, t2⟩ := pair
        have hlt := Tracked.step_bound_lt (fuel + 1) t rfl a t2 hstep
        have hle := ih t2
        simp only [List.length_cons]
        omega

lemma Tracked.finiteOrigin_of_finite :
    ∀ {α : Type} {F : Finiteness} (t : Tracked α F), F = .Finite →
      Tracked.finiteOrigin t = true := by
  intro α F t
  induction t with
  | into_tracked it => intro hF; simp at hF
  | take t n ih => intro hF; simp [Tracked.finiteOrigin]
  | map t f ih => intro hF; simp [Tracked.finiteOrigin]; exact ih hF
  | filter t p ih => intro hF; simp [Tracked.finiteOrigin]; exact ih hF
  | fromVec l => intro hF; simp [Tracked.finiteOrigin]
  | fromSlice l => intro hF; simp [Tracked.finiteOrigin]


/-- C3: the delay-sequence acceptance point (`Tracked.next_delay`, the
`DelayStrategy` impl) is typed at `Tracked α .Finite`, so it admits only
`Finite`-tagged sequences; every constructible `Finite`-tagged sequence
originates from `take` or a bounded-collection conversion (under
tag-preserving `map`/`filter` adaptors), and the tag is sound: such a
sequence yields at most its static bound of elements, however much fuel its
evaluation is given. -/
theorem finite_tracked_bounded_and_originates {α : Type}
    (t : Tracked α .Finite) :
    (∀ fuel, ((Tracked.produceT fuel t).length ≤ Tracked.bound t
      ∧ Tracked.next_delay fuel t = Tracked.step fuel t)) ∧
    Tracked.finiteOrigin t = true :=
  ⟨fun fuel => ⟨Tracked.produceT_length_le fuel t, rfl⟩,
   Tracked.finiteOrigin_of_finite t rfl⟩

end TryAgain
